import Mathlib

/-!
Shallow embedding of `bakesequencerlevels.py` (function
`sync_visible_levels_to_sequencer` and its helpers) together with proofs of
the specified properties of the synchronization algorithm.

Modelling conventions:
* Python strings become `String`; `rsplit("/", 1)[-1]` (suffix after the last
  `/`, or the whole string) and `split(".")[-1]` (suffix after the last `.`)
  are modelled by `afterLastSep`.
* Engine calls that may raise become `Except Unit`; an uncaught exception
  aborts the run (`SyncOutcome.exn`).
* `unreal` API objects consumed by the script become explicit record fields:
  a level's streaming wrapper (or `none` for a persistent level), the editor
  world (`none` when unavailable), the active sequence (`none` when no
  sequence is open), whether `sequence.add_track` succeeds (`addTrackOk`),
  and whether the k-th `track.add_section()` call of the run succeeds
  (`addOk k`).
* Log lines relevant to the claims are recorded in the result: the
  "Skip (already present)" lines (`skips`) and the
  "Failed to add section" warnings (`addFails`).
-/

/-- Suffix of `l` strictly after the last occurrence of `sep`
(`l` itself when `sep` does not occur).  This is Python's
`s.rsplit(sep, 1)[-1]` and also `s.split(sep)[-1]`. -/
def afterLastSep (sep : Char) (l : List Char) : List Char :=
  (l.reverse.takeWhile (fun c => c ≠ sep)).reverse

/-- Part of `l` strictly before the last `.` when `l` contains a `.`,
otherwise `l` itself (a filename with its extension stripped). -/
def beforeLastDot (l : List Char) : List Char :=
  if '.' ∈ l then ((l.reverse.dropWhile (fun c => c ≠ '.')).drop 1).reverse
  else l

/-- The function `_short_name_from_package` from the source:
`"/Game/Maps/SubLevels/MySub_A" -> "MySub_A"`; empty input yields `""`;
otherwise take the text after the last `/` (`rsplit("/", 1)[-1]`) and then
the text after the last `.` (`split(".")[-1]`). -/
def shortNameFromPackage (packagePath : String) : String :=
  if packagePath = "" then ""
  else ⟨afterLastSep '.' (afterLastSep '/' packagePath.toList)⟩

/-- Modelled from the spec: `_level_short_name` calls
`unreal.Paths.get_base_filename`, which is engine code not in this
repository; per §4.1 it normalizes a path-like display string down to its
base filename (strip directory and extension; a non-path string is its own
base name). -/
def levelShortName (s : String) : String :=
  ⟨beforeLastDot (afterLastSep '/' s.toList)⟩

/-- The streaming wrapper returned by
`unreal.GameplayStatics.get_streaming_level`.  Flag accessors may raise
(`Except.error`); the optional `get_world_asset_package_name` accessor is
absent (`none`), raising (`some (Except.error ())`), or returns a string. -/
structure StreamingWrapper where
  isVisibleResult : Except Unit Bool
  isLoadedResult : Except Unit Bool
  altAccessor : Option (Except Unit String)

/-- One level of the editor world: its package path, and its streaming
wrapper (`none` when the level is persistent). -/
structure Level where
  packagePath : String
  streaming : Option StreamingWrapper

/-- A Level Visibility section as configured by the script's setters. -/
structure Section where
  rowIndex : Nat
  visible : Bool
  levelNames : List String
  range : Int × Int
deriving DecidableEq

/-- A `MovieSceneLevelVisibilityTrack`: its sections. -/
structure Track where
  sections : List Section
deriving DecidableEq

/-- The active level sequence: its Level Visibility tracks (as returned by
`find_tracks_by_type`) and its playback range. -/
structure Sequence where
  visTracks : List Track
  playbackStart : Int
  playbackEnd : Int
deriving DecidableEq

/-- The ambient editor state and sink behaviour consumed by one run. -/
structure SyncEnv where
  sequence : Option Sequence
  world : Option (List Level)
  addTrackOk : Bool
  addOk : Nat → Bool

/-- The pretty-name computation of the gathering loop (lines 71–80):
start from `_short_name_from_package(package_path)`; if the wrapper has a
callable `get_world_asset_package_name` that returns a non-empty string,
use that string instead; an exception there is swallowed (`except: pass`). -/
def resolvePretty (packagePath : String) (alt : Option (Except Unit String)) : String :=
  let pretty := shortNameFromPackage packagePath
  match alt with
  | some (Except.ok pkgName) => if pkgName ≠ "" then shortNameFromPackage pkgName else pretty
  | _ => pretty

/-- One iteration of the gathering loop (lines 61–90) for one level:
`Except.error` when a flag accessor raises (the exception propagates),
`Except.ok (some shortName)` when the level is streaming, visible and
loaded, `Except.ok none` otherwise (persistent, or not visible+loaded). -/
def captureLevel (lvl : Level) : Except Unit (Option String) :=
  match lvl.streaming with
  | none => Except.ok none
  | some w =>
    match w.isVisibleResult with
    | Except.error e => Except.error e
    | Except.ok isVisible =>
      match w.isLoadedResult with
      | Except.error e => Except.error e
      | Except.ok isLoaded =>
        if isVisible && isLoaded then
          Except.ok (some (levelShortName (resolvePretty lvl.packagePath w.altAccessor)))
        else Except.ok none

/-- The whole gathering loop: `visible_level_names` in level order, or the
propagated exception. -/
def gatherNames : List Level → Except Unit (List String)
  | [] => Except.ok []
  | lvl :: rest =>
    match captureLevel lvl with
    | Except.error e => Except.error e
    | Except.ok name? =>
      match gatherNames rest with
      | Except.error e => Except.error e
      | Except.ok restNames =>
        match name? with
        | some n => Except.ok (n :: restNames)
        | none => Except.ok restNames

/-- All level names mentioned by a list of sections (lines 105–108 build
the Python set `existing` of exactly these strings; membership in this list
is membership in that set). -/
def sectionNames (secs : List Section) : List String :=
  secs.flatMap Section.levelNames

/-- Mutable state of the section-adding loop (lines 114–130). -/
structure LoopState where
  sections : List Section
  added : Nat
  attempts : Nat
  skips : List String
  addFails : List String
deriving DecidableEq

/-- The section-adding loop (lines 114–130): for each candidate name, skip
it when already present (logging it in `skips`); otherwise call
`add_section` (the `attempts`-th call, succeeding iff `addOk attempts`);
on failure log the name in `addFails` and continue; on success configure
the new section with `rowIndex = added`, the playback range, the singleton
name list and VISIBLE, then increment `added`. -/
def addLoop (addOk : Nat → Bool) (existing : List String) (range : Int × Int) :
    List String → LoopState → LoopState
  | [], st => st
  | name :: rest, st =>
    if name ∈ existing then
      addLoop addOk existing range rest { st with skips := st.skips ++ [name] }
    else if addOk st.attempts then
      addLoop addOk existing range rest
        { sections := st.sections ++ [⟨st.added, true, [name], range⟩]
          added := st.added + 1
          attempts := st.attempts + 1
          skips := st.skips
          addFails := st.addFails }
    else
      addLoop addOk existing range rest
        { st with attempts := st.attempts + 1, addFails := st.addFails ++ [name] }

/-- How one run of `sync_visible_levels_to_sequencer` ends. -/
inductive SyncOutcome where
  | noSequence
  | noTrack
  | noWorld
  | noCandidates
  | exn
  | completed (added : Nat)
deriving DecidableEq

/-- Observable result of one run: the outcome, the final state of the
sequence (tracks included), the duplicate-skip log lines, the
failed-creation warnings, and the sections created by this run (in creation
order; they are exactly the sections appended to the used track). -/
structure SyncResult where
  outcome : SyncOutcome
  sequence : Option Sequence
  skips : List String
  addFails : List String
  newSections : List Section
deriving DecidableEq

/-- The `added` count reported by the final log line (0 when the run ended
before the adding loop). -/
def SyncResult.addedCount (r : SyncResult) : Nat :=
  match r.outcome with
  | SyncOutcome.completed n => n
  | _ => 0

/-- Steps 3–8 of the run, once a visibility track is at hand: `track` is
the used track (head of `visTracks`), `rest` the remaining tracks. -/
def syncWithTrack (env : SyncEnv) (seq : Sequence) (track : Track) (rest : List Track) :
    SyncResult :=
  match env.world with
  | none => ⟨SyncOutcome.noWorld, some { seq with visTracks := track :: rest }, [], [], []⟩
  | some levels =>
    match gatherNames levels with
    | Except.error _ =>
      ⟨SyncOutcome.exn, some { seq with visTracks := track :: rest }, [], [], []⟩
    | Except.ok names =>
      if names = [] then
        ⟨SyncOutcome.noCandidates, some { seq with visTracks := track :: rest }, [], [], []⟩
      else
        let range := (seq.playbackStart, seq.playbackEnd)
        let existing := sectionNames track.sections
        let st := addLoop env.addOk existing range names ⟨[], 0, 0, [], []⟩
        ⟨SyncOutcome.completed st.added,
          some { seq with visTracks := Track.mk (track.sections ++ st.sections) :: rest },
          st.skips, st.addFails, st.sections⟩

/-- The entry point `sync_visible_levels_to_sequencer` (lines 27–136): abort when there is
no active sequence; find the first Level Visibility track or create one
(`add_track`, which may fail when `addTrackOk = false`); then run the rest
of the function. -/
def sync (env : SyncEnv) : SyncResult :=
  match env.sequence with
  | none => ⟨SyncOutcome.noSequence, none, [], [], []⟩
  | some seq =>
    match seq.visTracks with
    | t :: rest => syncWithTrack env seq t rest
    | [] =>
      if env.addTrackOk then
        syncWithTrack env { seq with visTracks := [Track.mk []] } (Track.mk []) []
      else ⟨SyncOutcome.noTrack, some seq, [], [], []⟩

/-- The candidate name list gathered from the world (empty when the world
is unavailable or the gathering loop raises). -/
def candidateNamesOf (env : SyncEnv) : List String :=
  match env.world with
  | none => []
  | some levels =>
    match gatherNames levels with
    | Except.ok names => names
    | Except.error _ => []

/-- The existing-name set of the track the run uses (empty when a fresh
track would be created, or no sequence is open). -/
def existingOf (env : SyncEnv) : List String :=
  match env.sequence with
  | none => []
  | some seq =>
    match seq.visTracks with
    | t :: _ => sectionNames t.sections
    | [] => []

/-- The `toAdd` list: candidate names not already on the track. -/
def toAddOf (env : SyncEnv) : List String :=
  (candidateNamesOf env).filter (fun n => decide (n ∉ existingOf env))

/-- The state of the adding loop at the end of a completed run. -/
def runLoop (env : SyncEnv) (seq : Sequence) (track : Track) (names : List String) :
    LoopState :=
  addLoop env.addOk (sectionNames track.sections) (seq.playbackStart, seq.playbackEnd)
    names ⟨[], 0, 0, [], []⟩

/-- Scene for the C1 counterexample: two streaming, visible and loaded
levels `A` and `B` over an empty track, with a track sink whose second
`add_section` call of each run fails (`addOk i = (i == 0)`). -/
def envIdem : SyncEnv :=
  { sequence := some ⟨[Track.mk []], 0, 100⟩
    world := some
      [⟨"/Game/L/A", some ⟨Except.ok true, Except.ok true, none⟩⟩,
       ⟨"/Game/L/B", some ⟨Except.ok true, Except.ok true, none⟩⟩]
    addTrackOk := true
    addOk := fun i => i == 0 }

/-- Scene for the C1 witness: same scene as `envIdem` but with a sink
whose `add_section` calls all succeed. -/
def envIdemOk : SyncEnv :=
  { sequence := some ⟨[Track.mk []], 0, 100⟩
    world := some
      [⟨"/Game/L/A", some ⟨Except.ok true, Except.ok true, none⟩⟩,
       ⟨"/Game/L/B", some ⟨Except.ok true, Except.ok true, none⟩⟩]
    addTrackOk := true
    addOk := fun _ => true }

/-- Scene for the C4 witness: one persistent level only. -/
def envPersistent : SyncEnv :=
  { sequence := some ⟨[Track.mk []], 0, 100⟩
    world := some [⟨"/Game/P", none⟩]
    addTrackOk := true
    addOk := fun _ => true }

/-- Streaming level, visible but not loaded, for the C4 witness. -/
def lvlNotLoaded : Level :=
  ⟨"/Game/L/C", some ⟨Except.ok true, Except.ok false, none⟩⟩

/-- Example scene of the spec: A persistent, B streaming visible+loaded at
`/Game/L/B`, C streaming visible but not loaded; playback range (0, 100);
one pre-existing empty track. -/
def envScenario : SyncEnv :=
  { sequence := some ⟨[Track.mk []], 0, 100⟩
    world := some
      [⟨"/Game/L/A", none⟩,
       ⟨"/Game/L/B", some ⟨Except.ok true, Except.ok true, none⟩⟩,
       ⟨"/Game/L/C", some ⟨Except.ok true, Except.ok false, none⟩⟩]
    addTrackOk := true
    addOk := fun _ => true }

/-- Environment with no active sequence, for the C8 witness. -/
def envNoSeq : SyncEnv :=
  { sequence := none, world := none, addTrackOk := true, addOk := fun _ => true }

/-- Environment whose sequence has no visibility track and whose
`add_track` call fails, for the C8 witness. -/
def envNoTrack : SyncEnv :=
  { sequence := some ⟨[], 0, 10⟩, world := none, addTrackOk := false, addOk := fun _ => true }

/-- Trackless sequence with no editor world, for the C10 witness. -/
def envFreshNoWorld : SyncEnv :=
  { sequence := some ⟨[], 5, 50⟩, world := none, addTrackOk := true, addOk := fun _ => true }

/-- Trackless sequence whose world has only a persistent level, for the
C10 witness. -/
def envFreshEmpty : SyncEnv :=
  { sequence := some ⟨[], 5, 50⟩, world := some [⟨"/Game/P2", none⟩]
    addTrackOk := true, addOk := fun _ => true }

/-- Scene for the C9 witness: candidates D (already on the track),
E (whose creation fails: the sink rejects the run's first `add_section`
call) and F (created). -/
def envFail : SyncEnv :=
  { sequence := some ⟨[Track.mk [⟨0, true, ["D"], (0, 100)⟩]], 0, 100⟩
    world := some
      [⟨"/Game/L/D", some ⟨Except.ok true, Except.ok true, none⟩⟩,
       ⟨"/Game/L/E", some ⟨Except.ok true, Except.ok true, none⟩⟩,
       ⟨"/Game/L/F", some ⟨Except.ok true, Except.ok true, none⟩⟩]
    addTrackOk := true
    addOk := fun i => decide (i ≠ 0) }

/-- Scene for the C2 counterexample: two distinct streaming fragments
`/Game/A/B` and `/Game/C/B` that both resolve to the DisplayName "B". -/
def envDup : SyncEnv :=
  { sequence := some ⟨[Track.mk []], 0, 100⟩
    world := some
      [⟨"/Game/A/B", some ⟨Except.ok true, Except.ok true, none⟩⟩,
       ⟨"/Game/C/B", some ⟨Except.ok true, Except.ok true, none⟩⟩]
    addTrackOk := true
    addOk := fun _ => true }

/-- Scene for the C2 witness: two streaming, visible and loaded fragments
with distinct DisplayNames G and H over an empty track. -/
def envScenario2 : SyncEnv :=
  { sequence := some ⟨[Track.mk []], 0, 100⟩
    world := some
      [⟨"/Game/L/G", some ⟨Except.ok true, Except.ok true, none⟩⟩,
       ⟨"/Game/L/H", some ⟨Except.ok true, Except.ok true, none⟩⟩]
    addTrackOk := true
    addOk := fun _ => true }

/-- Scene for the C3 counterexample and witness: the first streaming
level's `is_level_visible()` raises; the second is a healthy visible and
loaded streaming level. -/
def envFlagFail : SyncEnv :=
  { sequence := some ⟨[Track.mk []], 0, 100⟩
    world := some
      [⟨"/Game/L/Bad", some ⟨Except.error (), Except.ok true, none⟩⟩,
       ⟨"/Game/L/Good", some ⟨Except.ok true, Except.ok true, none⟩⟩]
    addTrackOk := true
    addOk := fun _ => true }

/-! ### General lemmas about the adding loop -/

lemma sectionNames_append (a b : List Section) :
    sectionNames (a ++ b) = sectionNames a ++ sectionNames b := by
  simp [sectionNames]

lemma addLoop_sections_append (addOk : Nat → Bool) (existing : List String)
    (range : Int × Int) (names : List String) (st : LoopState) :
    ∃ tl, (addLoop addOk existing range names st).sections = st.sections ++ tl := by
  induction names generalizing st with
  | nil => exact ⟨[], by simp [addLoop]⟩
  | cons name rest ih =>
    by_cases h1 : name ∈ existing
    · simpa [addLoop, h1] using ih _
    · by_cases h2 : addOk st.attempts
      · obtain ⟨tl, htl⟩ := ih
          { sections := st.sections ++ [⟨st.added, true, [name], range⟩]
            added := st.added + 1
            attempts := st.attempts + 1
            skips := st.skips
            addFails := st.addFails }
        exact ⟨⟨st.added, true, [name], range⟩ :: tl, by simp [addLoop, h1, h2, htl]⟩
      · simpa [addLoop, h1, h2] using ih _

lemma addLoop_addFails_append (addOk : Nat → Bool) (existing : List String)
    (range : Int × Int) (names : List String) (st : LoopState) :
    ∃ tl, (addLoop addOk existing range names st).addFails = st.addFails ++ tl := by
  induction names generalizing st with
  | nil => exact ⟨[], by simp [addLoop]⟩
  | cons name rest ih =>
    by_cases h1 : name ∈ existing
    · simpa [addLoop, h1] using ih _
    · by_cases h2 : addOk st.attempts
      · simpa [addLoop, h1, h2] using ih _
      · obtain ⟨tl, htl⟩ := ih { st with attempts := st.attempts + 1, addFails := st.addFails ++ [name] }
        exact ⟨name :: tl, by simp [addLoop, h1, h2, htl]⟩

lemma addLoop_covers (addOk : Nat → Bool) (existing : List String)
    (range : Int × Int) (names : List String) (st : LoopState)
    (h : (addLoop addOk existing range names st).addFails = st.addFails) :
    ∀ n ∈ names,
      n ∈ existing ∨ n ∈ sectionNames (addLoop addOk existing range names st).sections := by
  induction names generalizing st with
  | nil => simp
  | cons name rest ih =>
    intro n hn
    by_cases h1 : name ∈ existing
    · rw [addLoop, if_pos h1] at h ⊢
      rcases List.mem_cons.mp hn with rfl | hn'
      · exact Or.inl h1
      · exact ih _ h n hn'
    · by_cases h2 : addOk st.attempts
      · rw [addLoop, if_neg h1, if_pos h2] at h ⊢
        rcases List.mem_cons.mp hn with rfl | hn'
        · obtain ⟨tl, htl⟩ := addLoop_sections_append addOk existing range rest
            { sections := st.sections ++ [⟨st.added, true, [n], range⟩]
              added := st.added + 1
              attempts := st.attempts + 1
              skips := st.skips
              addFails := st.addFails }
          refine Or.inr ?_
          rw [htl]
          simp [sectionNames]
        · exact ih _ h n hn'
      · exfalso
        rw [addLoop, if_neg h1, if_neg h2] at h
        obtain ⟨tl, htl⟩ := addLoop_addFails_append addOk existing range rest
          { st with attempts := st.attempts + 1, addFails := st.addFails ++ [name] }
        rw [htl] at h
        have := congrArg List.length h
        simp at this

lemma addLoop_all_existing (addOk : Nat → Bool) (existing : List String)
    (range : Int × Int) (names : List String) (st : LoopState)
    (h : ∀ n ∈ names, n ∈ existing) :
    addLoop addOk existing range names st = { st with skips := st.skips ++ names } := by
  induction names generalizing st with
  | nil => simp [addLoop]
  | cons name rest ih =>
    have h1 : name ∈ existing := h name (by simp)
    rw [addLoop, if_pos h1, ih _ (fun n hn => h n (by simp [hn]))]
    simp

lemma addLoop_rows (addOk : Nat → Bool) (existing : List String)
    (range : Int × Int) (names : List String) (st : LoopState)
    (hlen : st.added = st.sections.length)
    (hrow : st.sections.map Section.rowIndex = List.range st.added) :
    (addLoop addOk existing range names st).added
        = (addLoop addOk existing range names st).sections.length
      ∧ (addLoop addOk existing range names st).sections.map Section.rowIndex
        = List.range (addLoop addOk existing range names st).added := by
  induction names generalizing st with
  | nil => exact ⟨by simpa [addLoop] using hlen, by simpa [addLoop] using hrow⟩
  | cons name rest ih =>
    by_cases h1 : name ∈ existing
    · rw [addLoop, if_pos h1]
      exact ih _ hlen hrow
    · by_cases h2 : addOk st.attempts
      · rw [addLoop, if_neg h1, if_pos h2]
        refine ih _ (by simp [hlen]) ?_
        simp only [List.map_append, hrow]
        rw [hlen, List.range_succ]
        simp [hlen]
      · rw [addLoop, if_neg h1, if_neg h2]
        exact ih _ hlen hrow

lemma addLoop_shape (P : Section → Prop) (addOk : Nat → Bool) (existing : List String)
    (range : Int × Int) (names : List String) (st : LoopState)
    (hst : ∀ s ∈ st.sections, P s)
    (hP : ∀ n, n ∈ names → n ∉ existing → ∀ k, P ⟨k, true, [n], range⟩) :
    ∀ s ∈ (addLoop addOk existing range names st).sections, P s := by
  induction names generalizing st with
  | nil => simpa [addLoop] using hst
  | cons name rest ih =>
    by_cases h1 : name ∈ existing
    · rw [addLoop, if_pos h1]
      exact ih _ hst (fun n hn => hP n (by simp [hn]))
    · by_cases h2 : addOk st.attempts
      · rw [addLoop, if_neg h1, if_pos h2]
        refine ih _ ?_ (fun n hn => hP n (by simp [hn]))
        intro s hs
        rcases List.mem_append.mp hs with hs' | hs'
        · exact hst s hs'
        · rcases List.mem_singleton.mp hs' with rfl
          exact hP name (by simp) h1 st.added
      · rw [addLoop, if_neg h1, if_neg h2]
        exact ih _ hst (fun n hn => hP n (by simp [hn]))

lemma addLoop_count (name : String) (addOk : Nat → Bool) (existing : List String)
    (range : Int × Int) (names : List String) (st : LoopState)
    (hok : ∀ i, addOk i = true) :
    (addLoop addOk existing range names st).sections.countP
        (fun s => decide (name ∈ s.levelNames))
      = st.sections.countP (fun s => decide (name ∈ s.levelNames))
        + (names.filter (fun n => decide (n ∉ existing))).count name := by
  induction names generalizing st with
  | nil => simp [addLoop]
  | cons n rest ih =>
    by_cases h1 : n ∈ existing
    · rw [addLoop, if_pos h1]
      have hf : (List.filter (fun m => decide (m ∉ existing)) (n :: rest))
          = List.filter (fun m => decide (m ∉ existing)) rest := by
        simp [List.filter_cons, h1]
      rw [hf]
      exact ih _
    · rw [addLoop, if_neg h1, if_pos (hok st.attempts), ih _]
      have hf : (List.filter (fun m => decide (m ∉ existing)) (n :: rest))
          = n :: List.filter (fun m => decide (m ∉ existing)) rest := by
        simp [List.filter_cons, h1]
      rw [hf, List.count_cons, List.countP_append]
      by_cases hn : n = name
      · subst hn
        simp [List.countP_cons]
        omega
      · have hx : (decide (name ∈ ([n] : List String))) = false := by
          simp
          exact fun hc => hn hc.symm
        simp [List.countP_cons, hx, hn]
        exact fun hc => hn hc.symm

lemma addLoop_totals (addOk : Nat → Bool) (existing : List String)
    (range : Int × Int) (names : List String) (st : LoopState) :
    (addLoop addOk existing range names st).added
        + (addLoop addOk existing range names st).addFails.length
      = st.added + st.addFails.length
        + (names.filter (fun n => decide (n ∉ existing))).length
    ∧ (addLoop addOk existing range names st).skips
      = st.skips ++ names.filter (fun n => decide (n ∈ existing)) := by
  induction names generalizing st with
  | nil => simp [addLoop]
  | cons name rest ih =>
    by_cases h1 : name ∈ existing
    · rw [addLoop, if_pos h1]
      obtain ⟨ha, hs⟩ := ih { st with skips := st.skips ++ [name] }
      constructor
      · rw [ha]
        simp [List.filter_cons, h1]
      · rw [hs]
        simp [List.filter_cons, h1]
    · by_cases h2 : addOk st.attempts
      · rw [addLoop, if_neg h1, if_pos h2]
        obtain ⟨ha, hs⟩ := ih
          { sections := st.sections ++ [⟨st.added, true, [name], range⟩]
            added := st.added + 1
            attempts := st.attempts + 1
            skips := st.skips
            addFails := st.addFails }
        constructor
        · rw [ha]
          simp [List.filter_cons, h1]
          omega
        · rw [hs]
          simp [List.filter_cons, h1]
      · rw [addLoop, if_neg h1, if_neg h2]
        obtain ⟨ha, hs⟩ := ih { st with attempts := st.attempts + 1, addFails := st.addFails ++ [name] }
        constructor
        · rw [ha]
          simp [List.filter_cons, h1]
          omega
        · rw [hs]
          simp [List.filter_cons, h1]

/-! ### General lemmas about the gathering loop -/

lemma gatherNames_skip (pre post : List Level) (lvl : Level)
    (h : captureLevel lvl = Except.ok none) :
    gatherNames (pre ++ lvl :: post) = gatherNames (pre ++ post) := by
  induction pre with
  | nil =>
    simp only [List.nil_append]
    cases h2 : gatherNames post <;> simp [gatherNames, h, h2]
  | cons p pre ih =>
    simp [gatherNames, ih]

lemma gatherNames_error_of_mem (levels : List Level) (lvl : Level)
    (hmem : lvl ∈ levels) (h : captureLevel lvl = Except.error ()) :
    gatherNames levels = Except.error () := by
  induction levels with
  | nil => cases hmem
  | cons p rest ih =>
    rcases List.mem_cons.mp hmem with rfl | hmem'
    · simp [gatherNames, h]
    · cases hc : captureLevel p with
      | error e =>
        cases e
        simp [gatherNames, hc]
      | ok name? =>
        simp [gatherNames, hc, ih hmem']

lemma gatherNames_persistent (levels : List Level)
    (h : ∀ l ∈ levels, l.streaming = none) :
    gatherNames levels = Except.ok [] := by
  induction levels with
  | nil => rfl
  | cons p rest ih =>
    have hp : captureLevel p = Except.ok none := by
      simp [captureLevel, h p (by simp)]
    simp [gatherNames, hp, ih (fun l hl => h l (by simp [hl]))]

/-! ### Wiring lemmas for `sync` -/

lemma sync_found (env : SyncEnv) (seq : Sequence) (track : Track) (rest : List Track)
    (hseq : env.sequence = some seq) (htr : seq.visTracks = track :: rest) :
    sync env = syncWithTrack env seq track rest := by
  simp [sync, hseq, htr]

lemma sync_fresh (env : SyncEnv) (seq : Sequence)
    (hseq : env.sequence = some seq) (htr : seq.visTracks = [])
    (hok : env.addTrackOk = true) :
    sync env = syncWithTrack env { seq with visTracks := [Track.mk []] } (Track.mk []) [] := by
  simp [sync, hseq, htr, hok]

lemma syncWithTrack_completed (env : SyncEnv) (seq : Sequence) (track : Track)
    (rest : List Track) (levels : List Level) (names : List String)
    (hw : env.world = some levels) (hg : gatherNames levels = Except.ok names)
    (hne : ¬names = []) :
    syncWithTrack env seq track rest
      = ⟨SyncOutcome.completed (runLoop env seq track names).added,
          some { seq with visTracks :=
            (Track.mk (track.sections ++ (runLoop env seq track names).sections) :: rest) },
          (runLoop env seq track names).skips,
          (runLoop env seq track names).addFails,
          (runLoop env seq track names).sections⟩ := by
  simp [syncWithTrack, hw, hg, hne, runLoop]

/-- After any completed or aborted run that got hold of a track, a second
run whose sequence is the first run's output and whose world is unchanged
adds nothing, provided the first run had no section-creation failures. -/
lemma syncWithTrack_second (env env2 : SyncEnv) (seq : Sequence) (track : Track)
    (rest : List Track)
    (hw2 : env2.world = env.world)
    (hseq2 : env2.sequence = (syncWithTrack env seq track rest).sequence)
    (hfail : (syncWithTrack env seq track rest).addFails = []) :
    (sync env2).addedCount = 0 := by
  cases hw : env.world with
  | none =>
    rw [hw] at hw2
    have h1 : syncWithTrack env seq track rest
        = ⟨SyncOutcome.noWorld, some { seq with visTracks := track :: rest }, [], [], []⟩ := by
      simp [syncWithTrack, hw]
    rw [h1] at hseq2
    rw [sync_found env2 _ track rest hseq2 rfl]
    simp [syncWithTrack, hw2, SyncResult.addedCount]
  | some levels =>
    rw [hw] at hw2
    cases hg : gatherNames levels with
    | error e =>
      cases e
      have h1 : syncWithTrack env seq track rest
          = ⟨SyncOutcome.exn, some { seq with visTracks := track :: rest }, [], [], []⟩ := by
        simp [syncWithTrack, hw, hg]
      rw [h1] at hseq2
      rw [sync_found env2 _ track rest hseq2 rfl]
      simp [syncWithTrack, hw2, hg, SyncResult.addedCount]
    | ok names =>
      by_cases hne : names = []
      · have h1 : syncWithTrack env seq track rest
            = ⟨SyncOutcome.noCandidates, some { seq with visTracks := track :: rest }, [], [], []⟩ := by
          simp [syncWithTrack, hw, hg, hne]
        rw [h1] at hseq2
        rw [sync_found env2 _ track rest hseq2 rfl]
        simp [syncWithTrack, hw2, hg, hne, SyncResult.addedCount]
      · rw [syncWithTrack_completed env seq track rest levels names hw hg hne] at hseq2 hfail
        simp only at hseq2 hfail
        have hcov : ∀ n ∈ names,
            n ∈ sectionNames track.sections
              ∨ n ∈ sectionNames (runLoop env seq track names).sections := by
          intro n hn
          exact addLoop_covers env.addOk (sectionNames track.sections)
            (seq.playbackStart, seq.playbackEnd) names ⟨[], 0, 0, [], []⟩ hfail n hn
        set track2 : Track :=
          Track.mk (track.sections ++ (runLoop env seq track names).sections) with htrack2
        have hcov2 : ∀ n ∈ names, n ∈ sectionNames track2.sections := by
          intro n hn
          rw [htrack2]
          simp only [sectionNames_append, List.mem_append]
          exact hcov n hn
        rw [sync_found env2 _ track2 rest hseq2 rfl]
        rw [syncWithTrack_completed env2 _ track2 rest levels names hw2 hg hne]
        have hloop := addLoop_all_existing env2.addOk (sectionNames track2.sections)
          (seq.playbackStart, seq.playbackEnd) names ⟨[], 0, 0, [], []⟩ hcov2
        have hadded : (runLoop env2 { seq with visTracks := (track2 :: rest) } track2 names).added = 0 := by
          show (addLoop env2.addOk (sectionNames track2.sections)
            (seq.playbackStart, seq.playbackEnd) names ⟨[], 0, 0, [], []⟩).added = 0
          rw [hloop]
        simp [SyncResult.addedCount, hadded]

/-! ### C1: idempotence -/

/-- C1 (amended): running `sync` twice with no mutation of the scene or
track between the runs yields `added = 0` on the second run, provided
every section creation attempted by the first run succeeded (the first run
logged no "Failed to add section" warning).  Every candidate name created
in the first run is then found in the track's existing-name set on the
second run, so every candidate is skipped. -/
theorem sync_idempotent_when_no_creation_failures (env : SyncEnv)
    (h : (sync env).addFails = []) :
    (sync { env with sequence := (sync env).sequence }).addedCount = 0 := by
  cases henv : env.sequence with
  | none =>
    have h1 : sync env = ⟨SyncOutcome.noSequence, none, [], [], []⟩ := by
      simp [sync, henv]
    rw [h1]
    simp [sync, SyncResult.addedCount]
  | some seq =>
    cases htr : seq.visTracks with
    | nil =>
      cases hok : env.addTrackOk with
      | false =>
        have h1 : sync env = ⟨SyncOutcome.noTrack, some seq, [], [], []⟩ := by
          simp [sync, henv, htr, hok]
        rw [h1]
        simp [sync, htr, hok, SyncResult.addedCount]
      | true =>
        have h1 : sync env
            = syncWithTrack env { seq with visTracks := [Track.mk []] } (Track.mk []) [] :=
          sync_fresh env seq henv htr hok
        rw [h1] at h ⊢
        exact syncWithTrack_second env _ _ (Track.mk []) [] rfl rfl h
    | cons track rest =>
      have h1 : sync env = syncWithTrack env seq track rest :=
        sync_found env seq track rest henv htr
      rw [h1] at h ⊢
      exact syncWithTrack_second env _ seq track rest rfl rfl h

/-- C1 counterexample: as stated the claim is false.  In `envIdem` the
first run creates a section for `A` but the sink fails on `B`; with no
mutation of the scene or track between the runs (same world, same sink),
the second run creates the section for `B`, reporting `added = 1`, not 0. -/
theorem sync_not_idempotent_cex :
    (sync envIdem).addFails = ["B"]
      ∧ (sync { envIdem with sequence := (sync envIdem).sequence }).addedCount = 1 := by
  constructor
  · decide
  · decide

/-- C1 witness: the amended theorem applied to the concrete scene
`envIdemOk`, whose first run has no creation failures. -/
theorem sync_idempotent_witness :
    (sync envIdemOk).addFails = []
      ∧ (sync { envIdemOk with sequence := (sync envIdemOk).sequence }).addedCount = 0 :=
  ⟨by decide, sync_idempotent_when_no_creation_failures envIdemOk (by decide)⟩

/-! ### C6: name resolution -/

/-- C6: name resolution is deterministic and total:
`_short_name_from_package` maps `"/Game/Maps/Sub/MySub_A"` to `"MySub_A"`,
the empty string to `""` (a valid degenerate output, not an error), and
`"/Game/X/Y.Y"` to `"Y"` (last `/`-segment, then everything after that
segment's last `.`); and with no alternate identity the gathered pretty
name is exactly `_short_name_from_package` of the package path. -/
theorem resolve_name_determinism :
    shortNameFromPackage "/Game/Maps/Sub/MySub_A" = "MySub_A"
      ∧ shortNameFromPackage "" = ""
      ∧ shortNameFromPackage "/Game/X/Y.Y" = "Y"
      ∧ ∀ p : String, resolvePretty p none = shortNameFromPackage p :=
  ⟨by decide, by decide, by decide, fun p => rfl⟩

/-! ### C4: candidate filter -/

/-- C4: an interval is created only for fragments that are streaming AND
visible AND loaded at snapshot time.  A streaming fragment with
`isVisible = true` and `isLoaded = false` contributes nothing to the
candidate list (so it never appears in `toAdd`); and a scene containing
only persistent fragments (no streaming wrapper) yields `added = 0` and no
new sections, regardless of the rest of the environment. -/
theorem candidate_filter_streaming_visible_loaded :
    (∀ (pre post : List Level) (lvl : Level) (w : StreamingWrapper),
        lvl.streaming = some w → w.isVisibleResult = Except.ok true →
        w.isLoadedResult = Except.ok false →
        gatherNames (pre ++ lvl :: post) = gatherNames (pre ++ post))
      ∧ ∀ (env : SyncEnv) (levels : List Level),
          env.world = some levels → (∀ l ∈ levels, l.streaming = none) →
          (sync env).addedCount = 0 ∧ (sync env).newSections = [] := by
  constructor
  · intro pre post lvl w hs hv hl
    apply gatherNames_skip
    simp [captureLevel, hs, hv, hl]
  · intro env levels hw hp
    cases henv : env.sequence with
    | none => simp [sync, henv, SyncResult.addedCount]
    | some seq =>
      have hg : gatherNames levels = Except.ok [] := gatherNames_persistent levels hp
      cases htr : seq.visTracks with
      | nil =>
        cases hok : env.addTrackOk with
        | false => simp [sync, henv, htr, hok, SyncResult.addedCount]
        | true =>
          rw [sync_fresh env seq henv htr hok]
          simp [syncWithTrack, hw, hg, SyncResult.addedCount]
      | cons t rest =>
        rw [sync_found env seq t rest henv htr]
        simp [syncWithTrack, hw, hg, SyncResult.addedCount]

/-- C4 witness: the theorem applied to `lvlNotLoaded` (excluded from an
otherwise empty scene) and to the all-persistent scene `envPersistent`. -/
theorem candidate_filter_witness :
    gatherNames ([] ++ lvlNotLoaded :: []) = gatherNames ([] ++ [])
      ∧ ((sync envPersistent).addedCount = 0 ∧ (sync envPersistent).newSections = []) :=
  ⟨candidate_filter_streaming_visible_loaded.1 [] [] lvlNotLoaded
      ⟨Except.ok true, Except.ok false, none⟩ rfl rfl rfl,
   candidate_filter_streaming_visible_loaded.2 envPersistent [⟨"/Game/P", none⟩] rfl
      (by intro l hl; rw [List.mem_singleton] at hl; subst hl; rfl)⟩

/-! ### C5: row allocation -/

lemma syncWithTrack_rows (env : SyncEnv) (seq : Sequence) (track : Track)
    (rest : List Track) :
    (syncWithTrack env seq track rest).newSections.map Section.rowIndex
      = List.range (syncWithTrack env seq track rest).newSections.length := by
  cases hw : env.world with
  | none => simp [syncWithTrack, hw]
  | some levels =>
    cases hg : gatherNames levels with
    | error e =>
      cases e
      simp [syncWithTrack, hw, hg]
    | ok names =>
      by_cases hne : names = []
      · simp [syncWithTrack, hw, hg, hne]
      · rw [syncWithTrack_completed env seq track rest levels names hw hg hne]
        obtain ⟨hlen, hrow⟩ := addLoop_rows env.addOk (sectionNames track.sections)
          (seq.playbackStart, seq.playbackEnd) names ⟨[], 0, 0, [], []⟩ rfl (by simp)
        show (runLoop env seq track names).sections.map Section.rowIndex
          = List.range (runLoop env seq track names).sections.length
        rw [runLoop, ← hlen]
        exact hrow

/-- C5: the row indices of the sections newly created by one run are
exactly `0, 1, ..., n-1` in creation order, for every environment — in
particular independent of the row indices of any pre-existing sections on
the track (which the run never reads). -/
theorem row_allocation_contiguous (env : SyncEnv) :
    (sync env).newSections.map Section.rowIndex
      = List.range (sync env).newSections.length := by
  cases henv : env.sequence with
  | none => simp [sync, henv]
  | some seq =>
    cases htr : seq.visTracks with
    | nil =>
      cases hok : env.addTrackOk with
      | false => simp [sync, henv, htr, hok]
      | true =>
        rw [sync_fresh env seq henv htr hok]
        exact syncWithTrack_rows env _ (Track.mk []) []
    | cons t rest =>
      rw [sync_found env seq t rest henv htr]
      exact syncWithTrack_rows env seq t rest

/-! ### C7: interval construction -/

lemma syncWithTrack_shape (env : SyncEnv) (seq : Sequence) (track : Track)
    (rest : List Track) (levels : List Level) (names : List String)
    (hw : env.world = some levels) (hg : gatherNames levels = Except.ok names) :
    ∀ s ∈ (syncWithTrack env seq track rest).newSections,
      s.visible = true ∧ s.range = (seq.playbackStart, seq.playbackEnd)
        ∧ ∃ n, n ∈ names ∧ n ∉ sectionNames track.sections ∧ s.levelNames = [n] := by
  by_cases hne : names = []
  · simp [syncWithTrack, hw, hg, hne]
  · rw [syncWithTrack_completed env seq track rest levels names hw hg hne]
    intro s hs
    refine addLoop_shape
      (fun s => s.visible = true ∧ s.range = (seq.playbackStart, seq.playbackEnd)
        ∧ ∃ n, n ∈ names ∧ n ∉ sectionNames track.sections ∧ s.levelNames = [n])
      env.addOk (sectionNames track.sections) (seq.playbackStart, seq.playbackEnd)
      names ⟨[], 0, 0, [], []⟩ (by simp) ?_ s hs
    intro n hn hne' k
    exact ⟨rfl, rfl, n, hn, hne', rfl⟩

/-- C7: every section created by a sync run is VISIBLE, spans the
sequence's full playback range, and carries exactly one name, the name of
a `toAdd` candidate; and on the spec's example scene the run creates
exactly the single section `members = {"B"}, range = (0, 100), rowIndex = 0`
and reports `added = 1`. -/
theorem interval_construction :
    (∀ (env : SyncEnv) (seq : Sequence), env.sequence = some seq →
        ∀ s ∈ (sync env).newSections,
          s.visible = true ∧ s.range = (seq.playbackStart, seq.playbackEnd)
            ∧ ∃ n ∈ toAddOf env, s.levelNames = [n])
      ∧ (sync envScenario).newSections = [⟨0, true, ["B"], (0, 100)⟩]
      ∧ (sync envScenario).addedCount = 1 := by
  refine ⟨?_, by decide, by decide⟩
  intro env seq hseq s hs
  cases htr : seq.visTracks with
  | nil =>
    cases hok : env.addTrackOk with
    | false => simp [sync, hseq, htr, hok] at hs
    | true =>
      rw [sync_fresh env seq hseq htr hok] at hs
      cases hw : env.world with
      | none => simp [syncWithTrack, hw] at hs
      | some levels =>
        cases hg : gatherNames levels with
        | error e =>
          cases e
          simp [syncWithTrack, hw, hg] at hs
        | ok names =>
          obtain ⟨hv, hr, n, hn, hne', hnames⟩ :=
            syncWithTrack_shape env _ (Track.mk []) [] levels names hw hg s hs
          refine ⟨hv, hr, n, ?_, hnames⟩
          have hex : existingOf env = [] := by
            simp [existingOf, hseq, htr]
          have hcand : candidateNamesOf env = names := by
            simp [candidateNamesOf, hw, hg]
          rw [toAddOf, hex, hcand]
          exact List.mem_filter.mpr ⟨hn, by simp⟩
  | cons track rest =>
    rw [sync_found env seq track rest hseq htr] at hs
    cases hw : env.world with
    | none => simp [syncWithTrack, hw] at hs
    | some levels =>
      cases hg : gatherNames levels with
      | error e =>
        cases e
        simp [syncWithTrack, hw, hg] at hs
      | ok names =>
        obtain ⟨hv, hr, n, hn, hne', hnames⟩ :=
          syncWithTrack_shape env seq track rest levels names hw hg s hs
        refine ⟨hv, hr, n, ?_, hnames⟩
        have hex : existingOf env = sectionNames track.sections := by
          simp [existingOf, hseq, htr]
        have hcand : candidateNamesOf env = names := by
          simp [candidateNamesOf, hw, hg]
        rw [toAddOf, hex, hcand]
        exact List.mem_filter.mpr ⟨hn, by simp [hne']⟩

/-- C7 witness: the general part of the theorem applied to the example
scene and its one created section. -/
theorem interval_construction_witness :
    (⟨0, true, ["B"], (0, 100)⟩ : Section).visible = true
      ∧ (⟨0, true, ["B"], (0, 100)⟩ : Section).range
          = ((⟨[Track.mk []], 0, 100⟩ : Sequence).playbackStart,
             (⟨[Track.mk []], 0, 100⟩ : Sequence).playbackEnd)
      ∧ ∃ n ∈ toAddOf envScenario, (⟨0, true, ["B"], (0, 100)⟩ : Section).levelNames = [n] :=
  interval_construction.1 envScenario ⟨[Track.mk []], 0, 100⟩ rfl
    ⟨0, true, ["B"], (0, 100)⟩ (by decide)

/-! ### C8: precondition-failure atomicity -/

/-- C8: when there is no active sequence, or no visibility track is
available (none on the sequence and `add_track` fails), the run aborts
with a report — `noSequence` or `noTrack` — and zero sections have been
created; in the `noTrack` case the sequence is returned unchanged. -/
theorem precondition_abort_atomic (env : SyncEnv) :
    (env.sequence = none →
        (sync env).outcome = SyncOutcome.noSequence ∧ (sync env).newSections = [])
      ∧ ∀ seq, env.sequence = some seq → seq.visTracks = [] → env.addTrackOk = false →
          (sync env).outcome = SyncOutcome.noTrack ∧ (sync env).newSections = []
            ∧ (sync env).sequence = some seq := by
  constructor
  · intro h
    simp [sync, h]
  · intro seq hseq htr hok
    simp [sync, hseq, htr, hok]

/-- C8 witness: the theorem applied to `envNoSeq` and `envNoTrack`. -/
theorem precondition_abort_witness :
    ((sync envNoSeq).outcome = SyncOutcome.noSequence ∧ (sync envNoSeq).newSections = [])
      ∧ ((sync envNoTrack).outcome = SyncOutcome.noTrack
          ∧ (sync envNoTrack).newSections = []
          ∧ (sync envNoTrack).sequence = some ⟨[], 0, 10⟩) :=
  ⟨(precondition_abort_atomic envNoSeq).1 rfl,
   (precondition_abort_atomic envNoTrack).2 ⟨[], 0, 10⟩ rfl rfl rfl⟩

/-! ### C10: track creation persists on aborted or empty runs -/

/-- C10: when the sequence has no Level Visibility track, `sync` creates
one before checking the editor world; the created (empty) track persists
in the returned sequence both when the run then aborts for lack of a world
and when it ends as a no-op with zero candidates. -/
theorem track_creation_persists (env : SyncEnv) (seq : Sequence)
    (hseq : env.sequence = some seq) (htr : seq.visTracks = [])
    (hok : env.addTrackOk = true) :
    (env.world = none →
        (sync env).outcome = SyncOutcome.noWorld
          ∧ (sync env).sequence = some { seq with visTracks := [Track.mk []] })
      ∧ ∀ levels, env.world = some levels → gatherNames levels = Except.ok [] →
          (sync env).outcome = SyncOutcome.noCandidates
            ∧ (sync env).sequence = some { seq with visTracks := [Track.mk []] } := by
  constructor
  · intro hw
    rw [sync_fresh env seq hseq htr hok]
    simp [syncWithTrack, hw]
  · intro levels hw hg
    rw [sync_fresh env seq hseq htr hok]
    simp [syncWithTrack, hw, hg]

/-- C10 witness: the theorem applied to `envFreshNoWorld` (aborted run)
and `envFreshEmpty` (no-op run); both keep the freshly created track. -/
theorem track_creation_persists_witness :
    ((sync envFreshNoWorld).outcome = SyncOutcome.noWorld
        ∧ (sync envFreshNoWorld).sequence = some ⟨[Track.mk []], 5, 50⟩)
      ∧ ((sync envFreshEmpty).outcome = SyncOutcome.noCandidates
        ∧ (sync envFreshEmpty).sequence = some ⟨[Track.mk []], 5, 50⟩) :=
  ⟨(track_creation_persists envFreshNoWorld ⟨[], 5, 50⟩ rfl rfl rfl).1 rfl,
   (track_creation_persists envFreshEmpty ⟨[], 5, 50⟩ rfl rfl rfl).2
      [⟨"/Game/P2", none⟩] rfl rfl⟩

/-! ### C9: per-interval creation failure -/

lemma filter_partition_length (l e : List String) :
    (l.filter (fun n => decide (n ∈ e))).length
        + (l.filter (fun n => decide (n ∉ e))).length = l.length := by
  induction l with
  | nil => simp
  | cons a l ih =>
    by_cases h : a ∈ e
    · have h1 : (a :: l).filter (fun n => decide (n ∈ e))
          = a :: l.filter (fun n => decide (n ∈ e)) := by
        simp [List.filter_cons, h]
      have h2 : (a :: l).filter (fun n => decide (n ∉ e))
          = l.filter (fun n => decide (n ∉ e)) := by
        simp [List.filter_cons, h]
      rw [h1, h2]
      simp only [List.length_cons]
      omega
    · have h1 : (a :: l).filter (fun n => decide (n ∈ e))
          = l.filter (fun n => decide (n ∈ e)) := by
        simp [List.filter_cons, h]
      have h2 : (a :: l).filter (fun n => decide (n ∉ e))
          = a :: l.filter (fun n => decide (n ∉ e)) := by
        simp [List.filter_cons, h]
      rw [h1, h2]
      simp only [List.length_cons]
      omega

/-- C9: in a run that reaches the adding loop, a null return from the
track sink on one interval creation does not abort the run: the run still
completes with a success report, the added count is `|toAdd|` reduced by
the number of failed creations, the duplicate-name skips are recorded
separately (exactly the candidates already on the track), and every
candidate is accounted for (`|skips| + |toAdd| = |candidates|`). -/
theorem creation_failure_recovery (env : SyncEnv) (seq : Sequence) (track : Track)
    (rest : List Track) (levels : List Level) (names : List String)
    (hseq : env.sequence = some seq) (htr : seq.visTracks = track :: rest)
    (hw : env.world = some levels) (hg : gatherNames levels = Except.ok names)
    (hne : ¬names = []) :
    (sync env).outcome = SyncOutcome.completed ((sync env).addedCount)
      ∧ (sync env).addedCount + (sync env).addFails.length = (toAddOf env).length
      ∧ (sync env).skips
          = names.filter (fun n => decide (n ∈ sectionNames track.sections))
      ∧ (sync env).skips.length + (toAddOf env).length = names.length := by
  rw [sync_found env seq track rest hseq htr,
    syncWithTrack_completed env seq track rest levels names hw hg hne]
  obtain ⟨ha, hs⟩ := addLoop_totals env.addOk (sectionNames track.sections)
    (seq.playbackStart, seq.playbackEnd) names ⟨[], 0, 0, [], []⟩
  have htoAdd : toAddOf env
      = names.filter (fun n => decide (n ∉ sectionNames track.sections)) := by
    simp [toAddOf, candidateNamesOf, existingOf, hseq, htr, hw, hg]
  refine ⟨rfl, ?_, ?_, ?_⟩
  · rw [htoAdd]
    simpa [SyncResult.addedCount, runLoop] using ha
  · simpa [runLoop] using hs
  · rw [htoAdd]
    have hs' : (runLoop env seq track names).skips
        = names.filter (fun n => decide (n ∈ sectionNames track.sections)) := by
      simpa [runLoop] using hs
    simp only [hs']
    exact filter_partition_length names (sectionNames track.sections)

/-- C9 witness: the theorem applied to `envFail`, in which one creation
fails and one candidate is a duplicate: the run completes, one section is
added of the two in `toAdd`, and only D is a skip. -/
theorem creation_failure_recovery_witness :
    (sync envFail).outcome = SyncOutcome.completed ((sync envFail).addedCount)
      ∧ (sync envFail).addedCount + (sync envFail).addFails.length = (toAddOf envFail).length
      ∧ (sync envFail).skips
          = ["D", "E", "F"].filter
              (fun n => decide (n ∈ sectionNames (Track.mk [⟨0, true, ["D"], (0, 100)⟩]).sections))
      ∧ (sync envFail).skips.length + (toAddOf envFail).length = (["D", "E", "F"] : List String).length :=
  creation_failure_recovery envFail ⟨[Track.mk [⟨0, true, ["D"], (0, 100)⟩]], 0, 100⟩
    (Track.mk [⟨0, true, ["D"], (0, 100)⟩]) [] _ ["D", "E", "F"] rfl rfl rfl rfl (by decide)

/-! ### C2: no duplication within one run -/

lemma syncWithTrack_count_name (env : SyncEnv) (seq : Sequence) (track : Track)
    (rest : List Track) (levels : List Level) (names : List String) (name : String)
    (hw : env.world = some levels) (hg : gatherNames levels = Except.ok names)
    (hok : ∀ i, env.addOk i = true) (hnd : names.Nodup)
    (hmem : name ∈ names.filter (fun n => decide (n ∉ sectionNames track.sections))) :
    ((syncWithTrack env seq track rest).newSections.countP
        (fun s => decide (name ∈ s.levelNames))) = 1 := by
  have hne : ¬names = [] := by
    rintro rfl
    simp at hmem
  rw [syncWithTrack_completed env seq track rest levels names hw hg hne]
  show ((runLoop env seq track names).sections.countP
    (fun s => decide (name ∈ s.levelNames))) = 1
  rw [runLoop, addLoop_count name env.addOk (sectionNames track.sections)
    (seq.playbackStart, seq.playbackEnd) names ⟨[], 0, 0, [], []⟩ hok]
  simpa using List.count_eq_one_of_mem (hnd.filter _) hmem

/-- C2 (amended): after a single run of an environment holding a sequence
(with either an existing visibility track or a working `add_track`), if all
candidate DisplayNames are pairwise distinct and the track sink accepts
every creation, then every DisplayName in `toAdd` is contained in exactly
one of the sections newly created by that run.  (Two distinct fragments
resolving to the same DisplayName both pass the dedup test, which is
computed once before the loop, so the distinctness assumption is
necessary.) -/
theorem no_duplication_when_names_distinct (env : SyncEnv) (seq : Sequence)
    (hseq : env.sequence = some seq)
    (htrOk : seq.visTracks ≠ [] ∨ env.addTrackOk = true)
    (hnd : (candidateNamesOf env).Nodup) (hok : ∀ i, env.addOk i = true) :
    ∀ name ∈ toAddOf env,
      ((sync env).newSections.countP (fun s => decide (name ∈ s.levelNames))) = 1 := by
  intro name hname
  cases hw : env.world with
  | none =>
    have hcand : candidateNamesOf env = [] := by
      simp [candidateNamesOf, hw]
    rw [toAddOf, hcand] at hname
    simp at hname
  | some levels =>
    cases hg : gatherNames levels with
    | error e =>
      cases e
      have hcand : candidateNamesOf env = [] := by
        simp [candidateNamesOf, hw, hg]
      rw [toAddOf, hcand] at hname
      simp at hname
    | ok names =>
      have hcand : candidateNamesOf env = names := by
        simp [candidateNamesOf, hw, hg]
      rw [hcand] at hnd
      cases htr : seq.visTracks with
      | nil =>
        have hok2 : env.addTrackOk = true := by
          rcases htrOk with h | h
          · exact absurd htr h
          · exact h
        rw [sync_fresh env seq hseq htr hok2]
        have hex : existingOf env = [] := by
          simp [existingOf, hseq, htr]
        rw [toAddOf, hex, hcand] at hname
        exact syncWithTrack_count_name env _ (Track.mk []) [] levels names name
          hw hg hok hnd hname
      | cons track rest =>
        rw [sync_found env seq track rest hseq htr]
        have hex : existingOf env = sectionNames track.sections := by
          simp [existingOf, hseq, htr]
        rw [toAddOf, hex, hcand] at hname
        exact syncWithTrack_count_name env seq track rest levels names name
          hw hg hok hnd hname

/-- C2 counterexample: as stated the claim is false.  The dedup set is
computed once before the loop and never updated, so in `envDup` the name
"B" is in `toAdd` and TWO of the sections created in the same run contain
it. -/
theorem sync_duplicate_sections_cex :
    "B" ∈ toAddOf envDup
      ∧ ((sync envDup).newSections.countP (fun s => decide ("B" ∈ s.levelNames))) = 2 := by
  constructor
  · decide
  · decide

/-- C2 witness: the amended theorem applied to `envScenario2` and the
`toAdd` name "G". -/
theorem no_duplication_witness :
    ((sync envScenario2).newSections.countP (fun s => decide ("G" ∈ s.levelNames))) = 1 :=
  no_duplication_when_names_distinct envScenario2 ⟨[Track.mk []], 0, 100⟩ rfl
    (Or.inr rfl) (by decide) (fun i => rfl) "G" (by decide)

/-! ### C3: per-fragment capture failure -/

/-- C3 (amended): a failure while retrieving a fragment's visible/loaded
flags is NOT recovered: the exception propagates, the whole run aborts
with no sections created.  Only a failure of the optional
alternate-identity accessor is recovered locally: the fragment is kept and
processed exactly as if it had no such accessor (package-path fallback
name). -/
theorem flag_failure_aborts (env : SyncEnv) (seq : Sequence) (levels : List Level)
    (lvl : Level) (hseq : env.sequence = some seq)
    (htrOk : seq.visTracks ≠ [] ∨ env.addTrackOk = true)
    (hw : env.world = some levels) (hmem : lvl ∈ levels)
    (herr : captureLevel lvl = Except.error ()) :
    ((sync env).outcome = SyncOutcome.exn ∧ (sync env).newSections = []
        ∧ (sync env).addedCount = 0)
      ∧ ∀ (p : String) (w : StreamingWrapper), w.altAccessor = some (Except.error ()) →
          captureLevel ⟨p, some w⟩
            = captureLevel ⟨p, some ⟨w.isVisibleResult, w.isLoadedResult, none⟩⟩ := by
  constructor
  · have hgerr : gatherNames levels = Except.error () :=
      gatherNames_error_of_mem levels lvl hmem herr
    cases htr : seq.visTracks with
    | nil =>
      have hok2 : env.addTrackOk = true := by
        rcases htrOk with h | h
        · exact absurd htr h
        · exact h
      rw [sync_fresh env seq hseq htr hok2]
      simp [syncWithTrack, hw, hgerr, SyncResult.addedCount]
    | cons track rest =>
      rw [sync_found env seq track rest hseq htr]
      simp [syncWithTrack, hw, hgerr, SyncResult.addedCount]
  · intro p w halt
    cases hv : w.isVisibleResult with
    | error e => simp [captureLevel, hv]
    | ok b =>
      cases hl : w.isLoadedResult with
      | error e => simp [captureLevel, hv, hl]
      | ok b2 => simp [captureLevel, hv, hl, resolvePretty, halt]

/-- C3 counterexample: as stated the claim is false.  In `envFlagFail`,
one fragment's flag retrieval fails and the run aborts with the exception:
no section is created, so the remaining healthy fragment "Good" is NOT
processed — the capture does not continue. -/
theorem flag_failure_cex :
    (sync envFlagFail).outcome = SyncOutcome.exn
      ∧ (sync envFlagFail).newSections = []
      ∧ (sync envFlagFail).addedCount = 0
      ∧ gatherNames
          [⟨"/Game/L/Good", some ⟨Except.ok true, Except.ok true, none⟩⟩]
          = Except.ok ["Good"] := by
  refine ⟨by decide, by decide, by decide, rfl⟩

/-- C3 witness: the amended theorem applied to `envFlagFail` and to a
wrapper whose alternate-identity accessor raises. -/
theorem flag_failure_aborts_witness :
    ((sync envFlagFail).outcome = SyncOutcome.exn ∧ (sync envFlagFail).newSections = []
        ∧ (sync envFlagFail).addedCount = 0)
      ∧ captureLevel ⟨"/Game/L/X", some ⟨Except.ok true, Except.ok true, some (Except.error ())⟩⟩
          = captureLevel ⟨"/Game/L/X", some ⟨Except.ok true, Except.ok true, none⟩⟩ :=
  ⟨(flag_failure_aborts envFlagFail ⟨[Track.mk []], 0, 100⟩ _
      ⟨"/Game/L/Bad", some ⟨Except.error (), Except.ok true, none⟩⟩ rfl (Or.inr rfl) rfl
      (List.mem_cons_self _ _) rfl).1,
   (flag_failure_aborts envFlagFail ⟨[Track.mk []], 0, 100⟩ _
      ⟨"/Game/L/Bad", some ⟨Except.error (), Except.ok true, none⟩⟩ rfl (Or.inr rfl) rfl
      (List.mem_cons_self _ _) rfl).2 "/Game/L/X"
      ⟨Except.ok true, Except.ok true, some (Except.error ())⟩ rfl⟩
